import Mathlib

/-!
Verification of the core of `deezer.js` (session lifecycle, per-asset key
derivation, stripe decryption, format selection and fallback handling).

The repository ships two near-identical variants of the `Deezer` class in
`src/index.js`: a CommonJS variant and an ESM variant.  Both are embedded
below.  External collaborators (the HTTP transport, the MD5 hash and the
`blowfish-js` block cipher) are modelled as abstract pure functions, exactly
as the specification treats them; byte buffers are lists of naturals that
are `< 256` where this matters.  The `while` loops are embedded as
structural recursion on a fuel bounded by the buffer length (each iteration
consumes at least one byte, so the fuel is never exhausted).
-/

/-- The fixed shared secret, written as the source writes it:
`"g4el58wc" + "0zvf9na1"` (CJS variant; the ESM variant has the single
literal `"g4el58wc0zvf9na1"`). -/
def CBC_KEY : String := "g4el58wc" ++ "0zvf9na1"

/-- The constant `Deezer.#SESSION_EXPIRE = 60000 * 15` (milliseconds). -/
def SESSION_EXPIRE : Nat := 60000 * 15

/-- The fixed 8-byte IV `Buffer.from([0, 1, 2, 3, 4, 5, 6, 7])` used for every
deciphered chunk. -/
def stripeIV : List Nat := [0, 1, 2, 3, 4, 5, 6, 7]

/-! ## Key derivation (`#getBlowfishKey`) -/

/-- JS `s.charCodeAt(i)` for the in-range, ASCII strings this code applies it
to (hex digests and the shared secret): the code of the `i`-th character. -/
def charCodeAt (s : String) (i : Nat) : Nat :=
  (s.toList.getD i (Char.ofNat 0)).toNat

/-- The 16 key bytes built by `#getBlowfishKey` from a 32-character hex
digest:
`String.fromCharCode(md5.charCodeAt(i) ^ md5.charCodeAt(i + 16) ^ CBC_KEY.charCodeAt(i))`
for `i = 0 .. 15`.  The MD5 hash itself is an external collaborator
(`crypto.createHash("md5")`), so the digest string is a parameter here. -/
def getBlowfishKey (digest : String) : List Nat :=
  (List.range 16).map fun i =>
    charCodeAt digest i ^^^ charCodeAt digest (i + 16) ^^^ charCodeAt CBC_KEY i

/-- Association-list lookup modelling `Map.has` / `Map.get` of the
`#blowfishKeyCache`. -/
def cacheLookup : List (String × List Nat) → String → Option (List Nat)
  | [], _ => none
  | p :: ps, id => if p.1 = id then some p.2 else cacheLookup ps id

/-- The memoized `#getBlowfishKey(trackId)` of the CJS variant: return the
cached key when present, otherwise derive it from the MD5 digest of the id
and cache it.  `md5hex` abstracts `createHash("md5").update(id).digest("hex")`. -/
def getBlowfishKeyCached (cache : List (String × List Nat)) (md5hex : String → String)
    (trackId : String) : List Nat × List (String × List Nat) :=
  match cacheLookup cache trackId with
  | some k => (k, cache)
  | none =>
    let k := getBlowfishKey (md5hex trackId)
    (k, (trackId, k) :: cache)

/-! ## Stripe decryption (`getAndDecryptTrack` decryption loop)

`cbc iv data` abstracts `blowfish.cbc(blowfishKey, iv, data, true)` — the
external Blowfish-CBC decryption closed over the derived key. -/

/-- The CJS decryption loop (`src/index.js` lines 270-289), one recursive call
per iteration of the `while (position < buffer.length)` loop:

```
const currentChunkSize = Math.min(chunkSize, buffer.length - position);
const chunk = buffer.subarray(position, position + currentChunkSize);
if (i % 3 || currentChunkSize < chunkSize) decryptedChunk = chunk;
else decryptedChunk = blowfish.cbc(blowfishKey, iv, chunk, true);
decryptedChunk.copy(decryptedBuffer, position);
```

The cipher is modelled as a pure function, so reusing the one `iv` buffer
allocated before the loop is the same as passing the value `stripeIV` each
time. -/
def decryptChunks (cbc : List Nat → List Nat → List Nat) :
    Nat → Nat → List Nat → List Nat
  | 0, _, _ => []
  | fuel + 1, i, buffer =>
    if buffer.isEmpty then []
    else
      let chunk := buffer.take 2048
      let decryptedChunk :=
        if i % 3 ≠ 0 ∨ chunk.length < 2048 then chunk else cbc stripeIV chunk
      decryptedChunk ++ decryptChunks cbc fuel (i + 1) (buffer.drop 2048)

/-- The whole stripe decryption of `getAndDecryptTrack` (CJS variant): run the
loop from chunk index 0 over the fetched payload. -/
def getAndDecryptTrackStripe (cbc : List Nat → List Nat → List Nat)
    (payload : List Nat) : List Nat :=
  decryptChunks cbc payload.length 0 payload

/-- The partition of a buffer into consecutive 2048-byte chunks, the final
chunk possibly shorter (fuelled helper). -/
def chunksOfFuel : Nat → List Nat → List (List Nat)
  | 0, _ => []
  | fuel + 1, l => if l.isEmpty then [] else l.take 2048 :: chunksOfFuel fuel (l.drop 2048)

/-- The partition of a buffer into consecutive 2048-byte chunks, the final
chunk possibly shorter. -/
def chunksOf (l : List Nat) : List (List Nat) :=
  chunksOfFuel l.length l

/-- Modelled from the spec: the per-chunk selection rule — chunk `k` is
deciphered if and only if `k % 3 = 0` and the chunk is a full 2048-byte
chunk; every other chunk passes through unchanged. -/
def stripeSpec (cbc : List Nat → List Nat → List Nat) :
    Nat → List (List Nat) → List (List Nat)
  | _, [] => []
  | k, c :: cs =>
    (if k % 3 = 0 ∧ c.length = 2048 then cbc stripeIV c else c) :: stripeSpec cbc (k + 1) cs

/-- JS latin1 round trip: `chunk.toString("binary")` followed by
`decryptedBuffer.write(chunk, position, chunk.length, "binary")` keeps, for
each byte, its value modulo 256 (bytes 0-255 map bijectively to the code
units U+0000..U+00FF and back to their low byte). -/
def writeBinary (l : List Nat) : List Nat := l.map fun b => b % 256

/-- The ESM decryption loop (`src/index.js` ESM variant, lines 487-505):

```
const chunkSize = Math.min(2048, buffer.length - position);
let chunk = Buffer.alloc(chunkSize);
buffer.copy(chunk, 0, position, position + chunkSize);
chunk = i % 3 || chunkSize < 2048
  ? chunk.toString("binary")
  : blowfish.cbc(blowfishKey, Buffer.from([0,1,2,3,4,5,6,7]), chunk, true).toString("binary");
decryptedBuffer.write(chunk, position, chunk.length, "binary");
```
-/
def decryptChunksESM (cbc : List Nat → List Nat → List Nat) :
    Nat → Nat → List Nat → List Nat
  | 0, _, _ => []
  | fuel + 1, i, buffer =>
    if buffer.isEmpty then []
    else
      let sz := min 2048 buffer.length
      let chunk := buffer.take sz
      let out :=
        if i % 3 ≠ 0 ∨ sz < 2048 then writeBinary chunk
        else writeBinary (cbc stripeIV chunk)
      out ++ decryptChunksESM cbc fuel (i + 1) (buffer.drop sz)

/-- The whole stripe decryption of the ESM `getAndDecryptTrack`. -/
def getAndDecryptTrackStripeESM (cbc : List Nat → List Nat → List Nat)
    (payload : List Nat) : List Nat :=
  decryptChunksESM cbc payload.length 0 payload

/-! ## Session lifecycle (`#ensureSession`)

The CJS variant initializes `#currentSessionTimestamp = null` (the ESM
variant uses `0`); in the guard `this.#currentSessionTimestamp +
Deezer.#SESSION_EXPIRE > Date.now()` JS coerces `null` to `0`, so an absent
session is the timestamp `none`, coerced to `0`. -/

/-- JS numeric coercion of the stored timestamp (`null` becomes `0`). -/
def coerceTimestamp (ts : Option Nat) : Nat := ts.getD 0

/-- One call of `#ensureSession`, observed at clock value `now`: if the guard
`timestamp + SESSION_EXPIRE > now` holds the call returns at once leaving the
state alone (`false` = no authentication exchange); otherwise it performs the
exchange and stores the fresh timestamp (`true` = one exchange). -/
def ensureSessionStep (ts : Option Nat) (now : Nat) : Option Nat × Bool :=
  if coerceTimestamp ts + SESSION_EXPIRE > now then (ts, false)
  else (some now, true)

/-- Whether a call of `#ensureSession` performs the authentication exchange. -/
def ensureSessionRefreshes (ts : Option Nat) (now : Nat) : Bool :=
  (ensureSessionStep ts now).2

/-- Modelled from the spec: «If no Session exists, or `now - issuedAt >= TTL`,
performs an authentication exchange» — the claimed refresh condition. -/
def specRefreshCondition (ts : Option Nat) (now : Nat) : Prop :=
  match ts with
  | none => True
  | some issuedAt => (SESSION_EXPIRE : Int) ≤ (now : Int) - (issuedAt : Int)

instance (ts : Option Nat) (now : Nat) : Decidable (specRefreshCondition ts now) := by
  unfold specRefreshCondition
  cases ts <;> infer_instance

/-! ## Interleaved session refresh (concurrency model for `#ensureSession`)

`#ensureSession` is `async`: it first evaluates the staleness guard, then
`await`s the HTTP exchange, and only after that writes the new timestamp.
Between the guard and the write other callers may run.  The model below
splits one call into an `observe` step (the guard; if stale the exchange is
issued there and counted) and a `finish` step (the `await` resolves and the
timestamp is stored). -/

/-- Shared state: the cached timestamp, the number of exchanges in flight and
the total number of authentication exchanges issued. -/
structure RefreshState where
  ts : Option Nat
  inFlight : Nat
  exchanges : Nat
deriving DecidableEq

/-- An atomic step of some caller inside `#ensureSession`. -/
inductive RefreshAction where
  | observe (now : Nat)
  | finish (now : Nat)
deriving DecidableEq

/-- The interleaving semantics of `#ensureSession`: `observe now` runs the
staleness guard (issuing an exchange when stale), `finish now` completes one
in-flight exchange (`this.#currentSessionTimestamp = Date.now()`). -/
def refreshStep (s : RefreshState) : RefreshAction → RefreshState
  | .observe now =>
    if coerceTimestamp s.ts + SESSION_EXPIRE > now then s
    else { s with inFlight := s.inFlight + 1, exchanges := s.exchanges + 1 }
  | .finish now =>
    match s.inFlight with
    | 0 => s
    | n + 1 => { ts := some now, inFlight := n, exchanges := s.exchanges }

/-- Run a whole interleaving. -/
def refreshRun (s : RefreshState) (acts : List RefreshAction) : RefreshState :=
  acts.foldl refreshStep s

/-! ## Track resolution (`#findBestFormat`, fallback, `getAndDecryptTrack`) -/

/-- A track record, with the fields `getAndDecryptTrack` reads.  JS size
fields are numbers or numeric strings put through `Number(...)`; a missing or
non-numeric field is falsy there, so sizes are naturals with `0` standing for
"zero or absent". -/
inductive Track where
  | mk (SNG_ID : String) (FILESIZE : Nat)
      (FILESIZE_MP3_320 FILESIZE_MP3_256 FILESIZE_MP3_128 FILESIZE_MP3_64 : Nat)
      (FILESIZE_FLAC : Nat) (FALLBACK : Option Track)

def Track.SNG_ID : Track → String
  | .mk v _ _ _ _ _ _ _ => v

def Track.FILESIZE : Track → Nat
  | .mk _ v _ _ _ _ _ _ => v

def Track.FILESIZE_MP3_320 : Track → Nat
  | .mk _ _ v _ _ _ _ _ => v

def Track.FILESIZE_MP3_256 : Track → Nat
  | .mk _ _ _ v _ _ _ _ => v

def Track.FILESIZE_MP3_128 : Track → Nat
  | .mk _ _ _ _ v _ _ _ => v

def Track.FILESIZE_MP3_64 : Track → Nat
  | .mk _ _ _ _ _ v _ _ => v

def Track.FILESIZE_FLAC : Track → Nat
  | .mk _ _ _ _ _ _ v _ => v

def Track.FALLBACK : Track → Option Track
  | .mk _ _ _ _ _ _ _ v => v

/-- The available encodings. -/
inductive Format where
  | FLAC
  | MP3_320
  | MP3_256
  | MP3_128
  | MP3_64
deriving DecidableEq

/-- The size field belonging to a format, read as `FILESIZE_` followed by the format name. -/
def Track.formatSize (t : Track) : Format → Nat
  | .FLAC => t.FILESIZE_FLAC
  | .MP3_320 => t.FILESIZE_MP3_320
  | .MP3_256 => t.FILESIZE_MP3_256
  | .MP3_128 => t.FILESIZE_MP3_128
  | .MP3_64 => t.FILESIZE_MP3_64

/-- The list `Deezer.#FORMAT_PRIORITIES = ["MP3_320", "MP3_256", "MP3_128", "MP3_64"]`. -/
def FORMAT_PRIORITIES : List Format := [.MP3_320, .MP3_256, .MP3_128, .MP3_64]

/-- The method `#findBestFormat(track, flac)`: `"FLAC"` when `flac`, otherwise the first
format of the priority list whose size field is truthy, `null` when none is. -/
def findBestFormat (t : Track) (flac : Bool) : Option Format :=
  if flac then some .FLAC
  else FORMAT_PRIORITIES.find? fun f => decide (t.formatSize f ≠ 0)

/-- The fallback substitution of `getAndDecryptTrack`:
`if (!Number(track.FILESIZE) && track.FALLBACK) track = track.FALLBACK;`. -/
def substituteFallback (t : Track) : Track :=
  match t.FALLBACK with
  | some fb => if t.FILESIZE = 0 then fb else t
  | none => t

/-- The errors `getAndDecryptTrack` can throw before touching the media
endpoints. -/
inductive TrackError where
  | flacNotPremium
  | flacUnavailable
  | noFormat
deriving DecidableEq

/-- The format-selection stage of `getAndDecryptTrack` after the fallback
substitution: the two FLAC guards, then `#findBestFormat` with its
`if (!format) throw` check. -/
def selectFormat (isPremium : Bool) (t : Track) (flac : Bool) :
    Except TrackError Format :=
  if flac && !isPremium then .error .flacNotPremium
  else if flac && (t.FILESIZE_FLAC == 0) then .error .flacUnavailable
  else
    match findBestFormat t flac with
    | some f => .ok f
    | none => .error .noFormat

/-- Network requests `getAndDecryptTrack` can issue: the `#ensureSession`
authentication exchange, the `media.deezer.com/v1/get_url` licensing request
and the payload fetch. -/
inductive NetEvent where
  | authExchange
  | getUrl
  | fetchPayload
deriving DecidableEq

/-- The method `getAndDecryptTrack` from the fallback substitution on, as the trace of
network requests it issues plus its outcome: either a thrown `TrackError`, or
the chosen format together with the `SNG_ID` passed to `#getBlowfishKey` for
key derivation.  The licensing response is abstracted as successful (its
failure depends only on the remote endpoint). -/
def resolveAfterFallback (isPremium stale : Bool) (t : Track) (flac : Bool) :
    List NetEvent × Except TrackError (Format × String) :=
  let sessionEvents := if stale then [NetEvent.authExchange] else []
  match selectFormat isPremium t flac with
  | .error e => (sessionEvents, .error e)
  | .ok f => (sessionEvents ++ [NetEvent.getUrl, NetEvent.fetchPayload], .ok (f, t.SNG_ID))

/-- The pre-decryption part of `getAndDecryptTrack`: `await #ensureSession()`
(one `authExchange` request when the cached session is stale), the fallback
substitution, then everything downstream of it. -/
def getAndDecryptTrackRun (isPremium stale : Bool) (track : Track) (flac : Bool) :
    List NetEvent × Except TrackError (Format × String) :=
  resolveAfterFallback isPremium stale (substituteFallback track) flac

/-! ## Concrete records used by witnesses and counterexamples -/

/-- The spec's format-selection example: sizes
`{MP3_320: 0, MP3_256: 5000, MP3_128: 9000}`. -/
def exampleTrack : Track := .mk ("3135556") 5000 0 5000 9000 0 0 none

/-- A track with every size field zero and no fallback. -/
def zeroSizeTrack : Track := .mk ("42") 1 0 0 0 0 0 none

/-- A fallback target with available audio. -/
def fallbackTarget : Track := .mk ("999") 4000 4000 0 0 0 0 none

/-- A track whose every per-encoding size field is zero but whose overall
`FILESIZE` field is truthy, carrying a fallback. -/
def allZeroSizesWithFallback : Track := .mk ("111") 7 0 0 0 0 0 (some fallbackTarget)

/-- A fallback that itself has a zero `FILESIZE` and its own fallback. -/
def chainedFallback : Track := .mk ("fb1") 0 0 0 0 0 0 (some fallbackTarget)

/-- A track whose fallback chain is two hops deep. -/
def chainHead : Track := .mk ("head") 0 0 0 0 0 0 (some chainedFallback)

/-! ## Lemmas about the stripe decryption -/

theorem decryptChunks_nil (cbc : List Nat → List Nat → List Nat) (f i : Nat) :
    decryptChunks cbc f i [] = [] := by
  cases f <;> simp [decryptChunks]

theorem chunksOfFuel_nil (f : Nat) : chunksOfFuel f [] = [] := by
  cases f <;> simp [chunksOfFuel]

/-- The loop's pass-through test `i % 3 || currentChunkSize < chunkSize` is
the negation of the spec's decipher test, for chunks of length at most
2048. -/
theorem stripe_cond_eq (cbc : List Nat → List Nat → List Nat) (i : Nat) (c : List Nat)
    (hc : c.length ≤ 2048) :
    (if i % 3 ≠ 0 ∨ c.length < 2048 then c else cbc stripeIV c) =
      (if i % 3 = 0 ∧ c.length = 2048 then cbc stripeIV c else c) := by
  rcases Nat.lt_or_ge c.length 2048 with h | h
  · have h2 : c.length ≠ 2048 := Nat.ne_of_lt h
    simp [h, h2]
  · have h2 : c.length = 2048 := Nat.le_antisymm hc h
    by_cases h1 : i % 3 = 0
    · simp [h1, h2]
    · simp [h1, h2]

theorem decryptChunks_eq_stripeSpec (cbc : List Nat → List Nat → List Nat) :
    ∀ f i l, l.length ≤ f →
      decryptChunks cbc f i l = (stripeSpec cbc i (chunksOfFuel f l)).flatten := by
  intro f
  induction f with
  | zero =>
    intro i l hl
    have hnil : l = [] := List.eq_nil_of_length_eq_zero (Nat.le_zero.mp hl)
    subst hnil
    simp [decryptChunks, chunksOfFuel, stripeSpec]
  | succ f ih =>
    intro i l hl
    by_cases hne : l.isEmpty = true
    · have hnil : l = [] := List.isEmpty_iff.mp hne
      subst hnil
      simp [decryptChunks, chunksOfFuel, stripeSpec]
    · have hpos : 0 < l.length := by
        cases l
        · simp at hne
        · simp
      rw [decryptChunks, chunksOfFuel]
      simp only [hne, if_false, Bool.false_eq_true]
      rw [stripeSpec, List.flatten_cons]
      rw [stripe_cond_eq cbc i _ (by simp [List.length_take])]
      rw [ih (i + 1) (l.drop 2048) (by simp [List.length_drop]; omega)]

theorem chunksOfFuel_flatten :
    ∀ f (l : List Nat), l.length ≤ f → (chunksOfFuel f l).flatten = l := by
  intro f
  induction f with
  | zero =>
    intro l hl
    have hnil : l = [] := List.eq_nil_of_length_eq_zero (Nat.le_zero.mp hl)
    subst hnil
    simp [chunksOfFuel]
  | succ f ih =>
    intro l hl
    by_cases hne : l.isEmpty = true
    · have hnil : l = [] := List.isEmpty_iff.mp hne
      subst hnil
      simp [chunksOfFuel]
    · have hpos : 0 < l.length := by
        cases l
        · simp at hne
        · simp
      rw [chunksOfFuel]
      simp only [hne, if_false, Bool.false_eq_true]
      rw [List.flatten_cons, ih (l.drop 2048) (by simp [List.length_drop]; omega)]
      exact List.take_append_drop 2048 l

theorem chunksOfFuel_chunk_bounds :
    ∀ f (l : List Nat), ∀ c ∈ chunksOfFuel f l, 0 < c.length ∧ c.length ≤ 2048 := by
  intro f
  induction f with
  | zero => intro l c hc; simp [chunksOfFuel] at hc
  | succ f ih =>
    intro l c hc
    by_cases hne : l.isEmpty = true
    · rw [chunksOfFuel] at hc
      simp [hne] at hc
    · have hpos : 0 < l.length := by
        cases l
        · simp at hne
        · simp
      rw [chunksOfFuel] at hc
      simp only [hne, if_false, Bool.false_eq_true, List.mem_cons] at hc
      rcases hc with hc | hc
      · subst hc
        constructor
        · simp [List.length_take]
          omega
        · simp [List.length_take]
      · exact ih _ c hc

/-- Every chunk except the last is a full 2048-byte chunk. -/
theorem chunksOfFuel_dropLast_full :
    ∀ f (l : List Nat), l.length ≤ f →
      ∀ c ∈ (chunksOfFuel f l).dropLast, c.length = 2048 := by
  intro f
  induction f with
  | zero => intro l hl c hc; simp [chunksOfFuel] at hc
  | succ f ih =>
    intro l hl c hc
    by_cases hne : l.isEmpty = true
    · rw [chunksOfFuel] at hc
      simp [hne] at hc
    · have hpos : 0 < l.length := by
        cases l
        · simp at hne
        · simp
      rw [chunksOfFuel] at hc
      simp only [hne, if_false, Bool.false_eq_true] at hc
      by_cases hd : (l.drop 2048).isEmpty = true
      · have hdnil : l.drop 2048 = [] := List.isEmpty_iff.mp hd
        rw [hdnil, chunksOfFuel_nil] at hc
        simp at hc
      · have hdpos : 0 < (l.drop 2048).length := by
          cases hq : l.drop 2048
          · rw [hq] at hd; simp at hd
          · simp [hq]
        have hlong : 2048 < l.length := by
          rw [List.length_drop] at hdpos
          omega
        have htail : chunksOfFuel f (l.drop 2048) ≠ [] := by
          have hfpos : 0 < f := by
            rw [List.length_drop] at hdpos
            omega
          obtain ⟨g, hg⟩ := Nat.exists_eq_succ_of_ne_zero (Nat.pos_iff_ne_zero.mp hfpos)
          rw [hg, chunksOfFuel]
          simp [hd]
        rw [List.dropLast_cons_of_ne_nil htail, List.mem_cons] at hc
        rcases hc with hc | hc
        · subst hc
          simp [List.length_take]
          omega
        · exact ih _ (by simp [List.length_drop]; omega) c hc

theorem decryptChunks_length (cbc : List Nat → List Nat → List Nat)
    (hlen : ∀ c, (cbc stripeIV c).length = c.length) :
    ∀ f i l, l.length ≤ f → (decryptChunks cbc f i l).length = l.length := by
  intro f
  induction f with
  | zero =>
    intro i l hl
    have hnil : l = [] := List.eq_nil_of_length_eq_zero (Nat.le_zero.mp hl)
    subst hnil
    simp [decryptChunks]
  | succ f ih =>
    intro i l hl
    by_cases hne : l.isEmpty = true
    · have hnil : l = [] := List.isEmpty_iff.mp hne
      subst hnil
      simp [decryptChunks]
    · have hpos : 0 < l.length := by
        cases l
        · simp at hne
        · simp
      rw [decryptChunks]
      simp only [hne, if_false, Bool.false_eq_true]
      rw [List.length_append, ih (i + 1) (l.drop 2048) (by simp [List.length_drop]; omega)]
      by_cases hcond : i % 3 ≠ 0 ∨ (l.take 2048).length < 2048
      · simp only [hcond, if_true]
        simp [List.length_take, List.length_drop]
        omega
      · simp only [hcond, if_false]
        rw [hlen]
        simp [List.length_take, List.length_drop]
        omega

/-- With a length-preserving cipher, re-chunking the decrypted output gives
exactly the chunkwise image of the input's chunks. -/
theorem chunksOfFuel_decryptChunks (cbc : List Nat → List Nat → List Nat)
    (hlen : ∀ c, (cbc stripeIV c).length = c.length) :
    ∀ f i l, l.length ≤ f →
      chunksOfFuel f (decryptChunks cbc f i l) = stripeSpec cbc i (chunksOfFuel f l) := by
  intro f
  induction f with
  | zero =>
    intro i l hl
    have hnil : l = [] := List.eq_nil_of_length_eq_zero (Nat.le_zero.mp hl)
    subst hnil
    simp [decryptChunks, chunksOfFuel, stripeSpec]
  | succ f ih =>
    intro i l hl
    by_cases hne : l.isEmpty = true
    · have hnil : l = [] := List.isEmpty_iff.mp hne
      subst hnil
      simp [decryptChunks, chunksOfFuel, stripeSpec]
    · have hpos : 0 < l.length := by
        cases l
        · simp at hne
        · simp
      have hrhs : chunksOfFuel (f + 1) l = l.take 2048 :: chunksOfFuel f (l.drop 2048) := by
        rw [chunksOfFuel, if_neg hne]
      have hlhs : decryptChunks cbc (f + 1) i l =
          (if i % 3 ≠ 0 ∨ (l.take 2048).length < 2048
            then l.take 2048 else cbc stripeIV (l.take 2048)) ++
            decryptChunks cbc f (i + 1) (l.drop 2048) := by
        rw [decryptChunks, if_neg hne]
      rw [hrhs, hlhs, stripeSpec,
        ← stripe_cond_eq cbc i _ (by rw [List.length_take]; omega)]
      set proc := if i % 3 ≠ 0 ∨ (l.take 2048).length < 2048
        then l.take 2048 else cbc stripeIV (l.take 2048) with hproc
      have hproclen : proc.length = (l.take 2048).length := by
        rw [hproc]
        split
        · rfl
        · rw [hlen]
      by_cases hd : (l.drop 2048).isEmpty = true
      · have hdnil : l.drop 2048 = [] := List.isEmpty_iff.mp hd
        have hplen : proc.length ≤ 2048 := by
          rw [hproclen, List.length_take]
          omega
        have hppos : 0 < proc.length := by
          rw [hproclen, List.length_take]
          omega
        have hpne : ¬ (proc.isEmpty = true) := by
          cases hq : proc
          · rw [hq] at hppos
            simp at hppos
          · simp
        rw [hdnil, decryptChunks_nil, chunksOfFuel_nil, List.append_nil]
        rw [chunksOfFuel, if_neg hpne]
        rw [List.take_of_length_le hplen, List.drop_eq_nil_of_le hplen, chunksOfFuel_nil]
        rw [stripeSpec]
      · have hdpos : 0 < (l.drop 2048).length := by
          cases hq : l.drop 2048
          · rw [hq] at hd
            simp at hd
          · simp [hq]
        have hlong : 2048 < l.length := by
          rw [List.length_drop] at hdpos
          omega
        have hproc2048 : proc.length = 2048 := by
          rw [hproclen, List.length_take]
          omega
        have happne : ¬ ((proc ++ decryptChunks cbc f (i + 1) (l.drop 2048)).isEmpty = true) := by
          cases hq : proc ++ decryptChunks cbc f (i + 1) (l.drop 2048)
          · have hql := congrArg List.length hq
            simp [hproc2048] at hql
          · simp
        rw [chunksOfFuel, if_neg happne]
        rw [List.take_append_of_le_length (by omega), List.take_of_length_le (by omega),
          List.drop_append_of_le_length (by omega), List.drop_eq_nil_of_le (by omega),
          List.nil_append]
        rw [ih (i + 1) (l.drop 2048) (by rw [List.length_drop]; omega)]

theorem stripeSpec_getElem (cbc : List Nat → List Nat → List Nat) :
    ∀ cs i k,
      (stripeSpec cbc i cs)[k]? =
        (cs[k]?).map fun c =>
          if (i + k) % 3 = 0 ∧ c.length = 2048 then cbc stripeIV c else c := by
  intro cs
  induction cs with
  | nil => intro i k; simp [stripeSpec]
  | cons c cs ih =>
    intro i k
    cases k with
    | zero => simp [stripeSpec]
    | succ k =>
      rw [stripeSpec]
      simp only [List.getElem?_cons_succ]
      rw [ih (i + 1) k]
      have harith : i + 1 + k = i + (k + 1) := by omega
      rw [harith]

theorem writeBinary_id (l : List Nat) (h : ∀ b ∈ l, b < 256) : writeBinary l = l := by
  unfold writeBinary
  conv =>
    rhs
    rw [← List.map_id l]
  exact List.map_congr_left fun b hb => Nat.mod_eq_of_lt (h b hb)

theorem decryptChunksESM_eq_decryptChunks (cbc : List Nat → List Nat → List Nat)
    (hc : ∀ c, ∀ b ∈ cbc stripeIV c, b < 256) :
    ∀ f i l, (∀ b ∈ l, b < 256) →
      decryptChunksESM cbc f i l = decryptChunks cbc f i l := by
  intro f
  induction f with
  | zero => intro i l hp; simp [decryptChunksESM, decryptChunks]
  | succ f ih =>
    intro i l hp
    by_cases hne : l.isEmpty = true
    · have hnil : l = [] := List.isEmpty_iff.mp hne
      subst hnil
      simp [decryptChunksESM, decryptChunks]
    · rw [decryptChunksESM, decryptChunks]
      simp only [hne, if_false, Bool.false_eq_true]
      have htake : l.take (min 2048 l.length) = l.take 2048 := by
        rcases Nat.le_total l.length 2048 with h | h
        · rw [Nat.min_eq_right h, List.take_length, List.take_of_length_le h]
        · rw [Nat.min_eq_left h]
      have hdrop : l.drop (min 2048 l.length) = l.drop 2048 := by
        rcases Nat.le_total l.length 2048 with h | h
        · rw [Nat.min_eq_right h, List.drop_length, List.drop_eq_nil_of_le h]
        · rw [Nat.min_eq_left h]
      have hsz : min 2048 l.length = (l.take 2048).length := by
        simp [List.length_take]
      simp only [htake, hdrop]
      rw [ih (i + 1) (l.drop 2048) fun b hb => hp b (List.drop_subset 2048 l hb)]
      have hchunk : ∀ b ∈ l.take 2048, b < 256 :=
        fun b hb => hp b (List.take_subset 2048 l hb)
      by_cases hcond : i % 3 ≠ 0 ∨ min 2048 l.length < 2048
      · rw [if_pos hcond, if_pos (by rw [← hsz]; exact hcond)]
        rw [writeBinary_id _ hchunk]
      · rw [if_neg hcond, if_neg (by rw [← hsz]; exact hcond)]
        rw [writeBinary_id _ (hc (l.take 2048))]

/-! ## Claim theorems: stripe decryption -/

/-- C1: the decryption loop of `getAndDecryptTrack` partitions the payload
into consecutive 2048-byte chunks (all chunks non-empty, at most 2048 bytes,
and all but the last exactly 2048 bytes), and its output is the
concatenation of the chunkwise rule «chunk `i` is deciphered iff
`i % 3 = 0` and the chunk is a full 2048-byte chunk; every other chunk —
in particular the final short chunk even at an index divisible by 3 — is
copied unchanged». -/
theorem stripe_chunk_selection (cbc : List Nat → List Nat → List Nat)
    (payload : List Nat) :
    (chunksOf payload).flatten = payload ∧
    ((chunksOf payload).all fun c => decide (0 < c.length) && decide (c.length ≤ 2048)) = true ∧
    (((chunksOf payload).dropLast.all fun c => c.length == 2048) = true) ∧
    getAndDecryptTrackStripe cbc payload = (stripeSpec cbc 0 (chunksOf payload)).flatten := by
  refine ⟨chunksOfFuel_flatten payload.length payload le_rfl, ?_, ?_, ?_⟩
  · rw [List.all_eq_true]
    intro c hcmem
    have h := chunksOfFuel_chunk_bounds payload.length payload c hcmem
    simp [h.1, h.2]
  · rw [List.all_eq_true]
    intro c hcmem
    have h := chunksOfFuel_dropLast_full payload.length payload le_rfl c hcmem
    simp [h]
  · exact decryptChunks_eq_stripeSpec cbc payload.length 0 payload le_rfl

/-- C5: every deciphered chunk is decrypted with the fixed IV
`[0,1,2,3,4,5,6,7]`, reset independently for every chunk: the `k`-th output
chunk is a function of the `k`-th input chunk alone (given that the cipher —
a block cipher — is length-preserving), so no CBC state crosses chunk
boundaries. -/
theorem stripe_fixed_iv_chunkwise (cbc : List Nat → List Nat → List Nat)
    (hlen : ∀ c, (cbc stripeIV c).length = c.length)
    (payload : List Nat) (k : Nat) :
    (chunksOf (getAndDecryptTrackStripe cbc payload))[k]? =
      ((chunksOf payload)[k]?).map
        (fun c => if k % 3 = 0 ∧ c.length = 2048 then cbc stripeIV c else c) := by
  unfold chunksOf getAndDecryptTrackStripe
  rw [decryptChunks_length cbc hlen payload.length 0 payload le_rfl]
  rw [chunksOfFuel_decryptChunks cbc hlen payload.length 0 payload le_rfl]
  rw [stripeSpec_getElem cbc (chunksOfFuel payload.length payload) 0 k]
  simp

theorem stripe_fixed_iv_chunkwise_witness :
    (chunksOf (getAndDecryptTrackStripe (fun _ c => c) [5]))[0]? = some [5] := by
  have h := stripe_fixed_iv_chunkwise (fun _ c => c) (fun c => rfl) [5] 0
  rw [h]
  decide

/-- C6: the stripe decryption is length-preserving (given the
length-preserving block cipher), an empty payload yields an empty output
and a payload shorter than one chunk is returned unchanged. -/
theorem stripe_length_preserving (cbc : List Nat → List Nat → List Nat)
    (hlen : ∀ c, (cbc stripeIV c).length = c.length)
    (payload : List Nat) :
    (getAndDecryptTrackStripe cbc payload).length = payload.length ∧
    getAndDecryptTrackStripe cbc [] = [] ∧
    (payload.length < 2048 → getAndDecryptTrackStripe cbc payload = payload) := by
  refine ⟨decryptChunks_length cbc hlen payload.length 0 payload le_rfl, rfl, ?_⟩
  intro hshort
  unfold getAndDecryptTrackStripe
  cases hp : payload with
  | nil => simp [decryptChunks]
  | cons a as =>
    rw [← hp]
    have hlenp : payload.length = as.length + 1 := by rw [hp]; rfl
    rw [hlenp, decryptChunks]
    have hne : payload.isEmpty = false := by rw [hp]; rfl
    simp only [hne, if_false, Bool.false_eq_true]
    rw [List.take_of_length_le (by omega), List.drop_eq_nil_of_le (by omega),
      decryptChunks_nil, List.append_nil]
    rw [if_pos]
    right
    omega

theorem stripe_length_preserving_witness :
    (getAndDecryptTrackStripe (fun _ c => c) [9, 8, 7]).length = 3 ∧
      getAndDecryptTrackStripe (fun _ c => c) [9, 8, 7] = [9, 8, 7] := by
  have h := stripe_length_preserving (fun _ c => c) (fun c => rfl) [9, 8, 7]
  exact ⟨h.1, h.2.2 (by decide)⟩

/-- C10: the CJS decryption loop (direct `Buffer` copies) and the ESM
decryption loop (each chunk round-tripped through a latin1 string) produce
the same output for every payload of bytes and every cipher producing
bytes. -/
theorem esm_cjs_loop_equivalence (cbc : List Nat → List Nat → List Nat)
    (payload : List Nat)
    (hp : ∀ b ∈ payload, b < 256)
    (hc : ∀ c, ∀ b ∈ cbc stripeIV c, b < 256) :
    getAndDecryptTrackStripeESM cbc payload = getAndDecryptTrackStripe cbc payload :=
  decryptChunksESM_eq_decryptChunks cbc hc payload.length 0 payload hp

theorem esm_cjs_loop_equivalence_witness :
    getAndDecryptTrackStripeESM (fun _ c => c.map fun b => 255 - b) [1, 2, 3] =
      getAndDecryptTrackStripe (fun _ c => c.map fun b => 255 - b) [1, 2, 3] := by
  have h := esm_cjs_loop_equivalence (fun _ c => c.map fun b => 255 - b) [1, 2, 3]
    (by decide)
    (by
      intro c b hb
      simp only [List.mem_map] at hb
      obtain ⟨x, _, hx⟩ := hb
      omega)
  exact h

/-! ## Claim theorems: key derivation -/

theorem cacheLookup_mem :
    ∀ (cache : List (String × List Nat)) (id : String) (k : List Nat),
      cacheLookup cache id = some k → (id, k) ∈ cache := by
  intro cache
  induction cache with
  | nil => intro id k h; simp [cacheLookup] at h
  | cons p ps ih =>
    intro id k h
    rw [cacheLookup] at h
    by_cases hp : p.1 = id
    · rw [if_pos hp] at h
      injection h with h2
      subst hp
      rw [← h2]
      exact List.mem_cons_self (p.1, p.2) ps
    · rw [if_neg hp] at h
      exact List.mem_cons_of_mem p (ih id k h)

/-- C2: the derived cipher key is deterministic (the memoized
`#getBlowfishKey` returns the same key a fresh derivation would, for any
well-formed cache state), is exactly 16 bytes, and its `i`-th byte is
`digest[i] XOR digest[i+16] XOR CBC_KEY[i]`, with the shared secret being
the fixed 16-byte constant `"g4el58wc0zvf9na1"`. -/
theorem blowfish_key_derivation (md5hex : String → String)
    (cache : List (String × List Nat)) (trackId : String) (i : Nat)
    (h : i < 16)
    (hwf : ∀ p ∈ cache, p.2 = getBlowfishKey (md5hex p.1)) :
    (getBlowfishKeyCached cache md5hex trackId).1 = getBlowfishKey (md5hex trackId) ∧
    (getBlowfishKey (md5hex trackId)).length = 16 ∧
    (getBlowfishKey (md5hex trackId))[i]? =
      some (charCodeAt (md5hex trackId) i ^^^ charCodeAt (md5hex trackId) (i + 16) ^^^
        charCodeAt CBC_KEY i) ∧
    CBC_KEY = "g4el58wc0zvf9na1" ∧ CBC_KEY.length = 16 := by
  refine ⟨?_, ?_, ?_, by decide, by decide⟩
  · unfold getBlowfishKeyCached
    cases hq : cacheLookup cache trackId with
    | none => rfl
    | some k =>
      have hmem := cacheLookup_mem cache trackId k hq
      have := hwf (trackId, k) hmem
      simpa using this
  · simp [getBlowfishKey]
  · simp [getBlowfishKey, List.getElem?_map, List.getElem?_range, h]

theorem blowfish_key_derivation_witness :
    (getBlowfishKeyCached [] (fun _ => "0123456789abcdef0123456789abcdef") "42").1 =
      getBlowfishKey ("0123456789abcdef0123456789abcdef") ∧
    (getBlowfishKey ("0123456789abcdef0123456789abcdef"))[0]? = some 103 := by
  have h := blowfish_key_derivation (fun _ => "0123456789abcdef0123456789abcdef") [] "42" 0
    (by decide) (by intro p hp; simp at hp)
  refine ⟨h.1, ?_⟩
  rw [h.2.2.1]
  decide

/-! ## Claim theorems: session lifecycle -/

theorem ensureSessionRefreshes_eq (ts : Option Nat) (now : Nat) :
    ensureSessionRefreshes ts now = decide (coerceTimestamp ts + SESSION_EXPIRE ≤ now) := by
  unfold ensureSessionRefreshes ensureSessionStep
  by_cases hc : coerceTimestamp ts + SESSION_EXPIRE > now
  · rw [if_pos hc]
    simp
    omega
  · rw [if_neg hc]
    simp
    omega

/-- C3 counterexample: with no cached session (the CJS `null` timestamp,
which JS coerces to `0`) and clock value `0`, the guard
`null + SESSION_EXPIRE > Date.now()` holds, so `#ensureSession` returns
without any exchange although the claimed condition ("no session exists")
demands one: the claimed equivalence fails at this input. -/
theorem session_refresh_claim_counterexample :
    ¬ (ensureSessionRefreshes none 0 = true ↔ specRefreshCondition none 0) := by
  decide

/-- C3 amended: for every clock value at least one TTL past the epoch (true
of every real `Date.now()`), `#ensureSession` performs the authentication
exchange iff no session exists or `now - issuedAt ≥ SESSION_EXPIRE`
(TTL = 15 minutes); a call on a valid session returns with the state
untouched; and after a refresh at `now`, every call strictly within the TTL
window performs no further exchange. -/
theorem session_refresh_iff (ts : Option Nat) (now : Nat)
    (h : SESSION_EXPIRE ≤ now) :
    (ensureSessionRefreshes ts now = true ↔ specRefreshCondition ts now) ∧
    (ensureSessionRefreshes ts now = false → ensureSessionStep ts now = (ts, false)) ∧
    (∀ now2, ensureSessionRefreshes ts now = true → now ≤ now2 →
      (now2 : Int) - (now : Int) < (SESSION_EXPIRE : Int) →
      ensureSessionRefreshes (ensureSessionStep ts now).1 now2 = false) := by
  refine ⟨?_, ?_, ?_⟩
  · rw [ensureSessionRefreshes_eq]
    cases ts with
    | none =>
      simp [coerceTimestamp, specRefreshCondition]
      omega
    | some t0 =>
      simp [coerceTimestamp, specRefreshCondition]
      omega
  · intro hf
    rw [ensureSessionRefreshes_eq] at hf
    simp at hf
    unfold ensureSessionStep
    rw [if_pos (by omega)]
  · intro now2 ht hle hlt
    rw [ensureSessionRefreshes_eq] at ht
    simp at ht
    have hstep : ensureSessionStep ts now = (some now, true) := by
      unfold ensureSessionStep
      rw [if_neg (by omega)]
    rw [hstep, ensureSessionRefreshes_eq]
    simp [coerceTimestamp]
    omega

theorem session_refresh_iff_witness :
    ensureSessionRefreshes (some 0) 900000 = true ∧
      ensureSessionRefreshes none 900000 = true := by
  have h1 := session_refresh_iff (some 0) 900000 (by decide)
  have h2 := session_refresh_iff none 900000 (by decide)
  exact ⟨h1.1.mpr (by decide), h2.1.mpr (by decide)⟩

/-! ## Claim theorems: single-flight refresh (concurrency) -/

/-- C4 counterexample: starting from a stale session
(`issuedAt = 0`, clock `900001 = TTL + 1`, so `now - issuedAt = TTL + 1`),
ten callers all run the staleness guard of `#ensureSession` before any
exchange resolves — the interleaving permitted by the `await` between the
guard and the timestamp write.  Each of the ten issues its own
authentication exchange: ten exchanges, not the claimed exactly one. -/
theorem single_flight_counterexample :
    (refreshRun ⟨some 0, 0, 0⟩
        (List.replicate 10 (RefreshAction.observe 900001) ++
          List.replicate 10 (RefreshAction.finish 900002))).exchanges = 10 ∧
      ¬ ((refreshRun ⟨some 0, 0, 0⟩
          (List.replicate 10 (RefreshAction.observe 900001) ++
            List.replicate 10 (RefreshAction.finish 900002))).exchanges = 1) := by
  decide

theorem refreshRun_observe_stale (t now : Nat) (h : t + SESSION_EXPIRE ≤ now) :
    ∀ (n fl ex : Nat),
      refreshRun ⟨some t, fl, ex⟩ (List.replicate n (RefreshAction.observe now)) =
        ⟨some t, fl + n, ex + n⟩ := by
  intro n
  induction n with
  | zero => intro fl ex; simp [refreshRun]
  | succ n ih =>
    intro fl ex
    rw [List.replicate_succ, refreshRun, List.foldl_cons]
    have hstep : refreshStep ⟨some t, fl, ex⟩ (RefreshAction.observe now) =
        ⟨some t, fl + 1, ex + 1⟩ := by
      simp only [refreshStep, coerceTimestamp, Option.getD]
      rw [if_neg (by omega)]
    rw [hstep]
    have hrest := ih (fl + 1) (ex + 1)
    rw [refreshRun] at hrest
    rw [hrest]
    simp [RefreshState.mk.injEq]
    omega

/-- C4 amended: there is no single-flight refresh — `#ensureSession` has no
guard between its staleness check and its `await`, so each of the `n`
concurrent callers that observes the stale session before any exchange
completes issues its own authentication exchange: `n` exchanges, not one. -/
theorem concurrent_stale_observers_each_exchange (n t now : Nat)
    (h : t + SESSION_EXPIRE ≤ now) :
    (refreshRun ⟨some t, 0, 0⟩
      (List.replicate n (RefreshAction.observe now))).exchanges = n := by
  rw [refreshRun_observe_stale t now h n 0 0]
  simp

theorem concurrent_stale_observers_each_exchange_witness :
    (refreshRun ⟨some 0, 0, 0⟩
      (List.replicate 10 (RefreshAction.observe 900001))).exchanges = 10 :=
  concurrent_stale_observers_each_exchange 10 0 900001 (by decide)

/-! ## Claim theorems: format selection, fallback, entitlement -/

/-- C7: with lossless not requested, `#findBestFormat` returns the first
format of `MP3_320, MP3_256, MP3_128, MP3_64` whose size field is non-zero
(`null` when none is), `getAndDecryptTrack` then throws the
unavailable-format error when every size in the list is zero, and on the
spec's example sizes `{MP3_320: 0, MP3_256: 5000, MP3_128: 9000}` the
selection is `MP3_256`. -/
theorem format_selection_priority (t : Track) (premium : Bool) :
    (findBestFormat t false =
      (if t.FILESIZE_MP3_320 ≠ 0 then some Format.MP3_320
       else if t.FILESIZE_MP3_256 ≠ 0 then some Format.MP3_256
       else if t.FILESIZE_MP3_128 ≠ 0 then some Format.MP3_128
       else if t.FILESIZE_MP3_64 ≠ 0 then some Format.MP3_64
       else none)) ∧
    ((∀ f ∈ FORMAT_PRIORITIES, t.formatSize f = 0) →
      selectFormat premium t false = Except.error TrackError.noFormat) ∧
    findBestFormat exampleTrack false = some Format.MP3_256 := by
  refine ⟨?_, ?_, by decide⟩
  · by_cases h320 : t.FILESIZE_MP3_320 = 0 <;>
      by_cases h256 : t.FILESIZE_MP3_256 = 0 <;>
      by_cases h128 : t.FILESIZE_MP3_128 = 0 <;>
      by_cases h64 : t.FILESIZE_MP3_64 = 0 <;>
      simp [findBestFormat, FORMAT_PRIORITIES, List.find?, Track.formatSize,
        h320, h256, h128, h64]
  · intro hall
    have h320 := hall Format.MP3_320 (by simp [FORMAT_PRIORITIES])
    have h256 := hall Format.MP3_256 (by simp [FORMAT_PRIORITIES])
    have h128 := hall Format.MP3_128 (by simp [FORMAT_PRIORITIES])
    have h64 := hall Format.MP3_64 (by simp [FORMAT_PRIORITIES])
    simp [Track.formatSize] at h320 h256 h128 h64
    simp [selectFormat, findBestFormat, FORMAT_PRIORITIES, List.find?, Track.formatSize,
      h320, h256, h128, h64]

theorem format_selection_priority_witness :
    selectFormat true zeroSizeTrack false = Except.error TrackError.noFormat ∧
      findBestFormat exampleTrack false = some Format.MP3_256 :=
  ⟨(format_selection_priority zeroSizeTrack true).2.1 (by decide),
    (format_selection_priority exampleTrack true).2.2⟩

/-- C8 counterexample: `allZeroSizesWithFallback` reports zero size for every
encoding and carries a fallback with available audio, yet because its overall
`FILESIZE` field is truthy (`7`) the code performs NO substitution — the call
ends in the no-format error instead of resolving via the fallback's sizes and
identifier, falsifying the claimed trigger «zero size for every encoding». -/
theorem fallback_claim_counterexample :
    allZeroSizesWithFallback.formatSize Format.FLAC = 0 ∧
    allZeroSizesWithFallback.formatSize Format.MP3_320 = 0 ∧
    allZeroSizesWithFallback.formatSize Format.MP3_256 = 0 ∧
    allZeroSizesWithFallback.formatSize Format.MP3_128 = 0 ∧
    allZeroSizesWithFallback.formatSize Format.MP3_64 = 0 ∧
    allZeroSizesWithFallback.FALLBACK = some fallbackTarget ∧
    fallbackTarget.FILESIZE_MP3_320 ≠ 0 ∧
    substituteFallback allZeroSizesWithFallback = allZeroSizesWithFallback ∧
    (getAndDecryptTrackRun true false allZeroSizesWithFallback false).2 =
      Except.error TrackError.noFormat := by
  refine ⟨rfl, rfl, rfl, rfl, rfl, rfl, by decide, rfl, rfl⟩

/-- C8 amended: the substitution trigger is the overall `FILESIZE` field
(`!Number(track.FILESIZE)`), not «zero size for every encoding»: whenever
`FILESIZE` is zero and a fallback is present, the fallback replaces the
track for everything downstream — format selection reads the fallback's
size fields and key derivation receives the fallback's `SNG_ID` — and the
substitution is exactly one hop: the fallback is used as-is even when it
itself has a zero `FILESIZE` and a fallback of its own. -/
theorem fallback_one_hop (t fb : Track) (premium stale flac : Bool)
    (h0 : t.FILESIZE = 0) (h1 : t.FALLBACK = some fb) :
    substituteFallback t = fb ∧
    getAndDecryptTrackRun premium stale t flac = resolveAfterFallback premium stale fb flac := by
  have hsub : substituteFallback t = fb := by
    simp [substituteFallback, h1, h0]
  exact ⟨hsub, by rw [getAndDecryptTrackRun, hsub]⟩

theorem fallback_one_hop_witness :
    substituteFallback chainHead = chainedFallback ∧
      getAndDecryptTrackRun true false chainHead false =
        resolveAfterFallback true false chainedFallback false :=
  fallback_one_hop chainHead chainedFallback true false false rfl rfl

/-- C9 counterexample: requesting FLAC without premium while the cached
session is stale: `getAndDecryptTrack` runs `await this.#ensureSession()`
first, so a network request (the authentication exchange) IS attempted
before the entitlement failure, contrary to the claimed «before any network
call». -/
theorem entitlement_claim_counterexample :
    getAndDecryptTrackRun false true exampleTrack true =
      ([NetEvent.authExchange], Except.error TrackError.flacNotPremium) ∧
    (getAndDecryptTrackRun false true exampleTrack true).1 ≠ [] :=
  ⟨rfl, by decide⟩

/-- C9 amended: FLAC requested without a premium session fails with the
entitlement error before any media network call (no `get_url` licensing
request, no payload fetch) — only the session-refresh exchange may precede
it; and with a premium session but a zero/absent lossless size field on the
(post-fallback) track, the call fails with the FLAC-unavailable error,
likewise before any media call. -/
theorem entitlement_before_media_calls (stale : Bool) (t : Track) :
    ((getAndDecryptTrackRun false stale t true).2 = Except.error TrackError.flacNotPremium ∧
      NetEvent.getUrl ∉ (getAndDecryptTrackRun false stale t true).1 ∧
      NetEvent.fetchPayload ∉ (getAndDecryptTrackRun false stale t true).1) ∧
    ((substituteFallback t).FILESIZE_FLAC = 0 →
      (getAndDecryptTrackRun true stale t true).2 = Except.error TrackError.flacUnavailable ∧
      NetEvent.getUrl ∉ (getAndDecryptTrackRun true stale t true).1 ∧
      NetEvent.fetchPayload ∉ (getAndDecryptTrackRun true stale t true).1) := by
  constructor
  · cases stale <;>
      simp [getAndDecryptTrackRun, resolveAfterFallback, selectFormat]
  · intro hflac
    cases stale <;>
      simp [getAndDecryptTrackRun, resolveAfterFallback, selectFormat, hflac]

theorem entitlement_before_media_calls_witness :
    (getAndDecryptTrackRun false true zeroSizeTrack true).2 =
      Except.error TrackError.flacNotPremium ∧
    (getAndDecryptTrackRun true true zeroSizeTrack true).2 =
      Except.error TrackError.flacUnavailable := by
  have h := entitlement_before_media_calls true zeroSizeTrack
  exact ⟨h.1.1, (h.2 (by decide)).1⟩
